import Mathlib

/-!
# Verification of the planar beam frame solver (`simple_fem_bridge_demo.py`)

Shallow embedding of the self-contained FEM implementation of the repository:
the classes `SimpleFEMBeam` and `ContinuousBridgeFEM` of
`src/simple_fem_bridge_demo.py`.

Embedding conventions:

* Python floats are modelled as exact rationals (`ℚ`).  The claims themselves
  are stated "to within floating-point tolerance"; over `ℚ` they are settled
  exactly.
* `np.sqrt` (used only to derive an element length from the two node
  positions in `add_element`) is modelled by `ratSqrt`, an executable rational
  square root that is exact whenever the radicand is the square of a rational
  number — which covers every configuration appearing in the claims
  (collinear nodes).
* `np.linalg.solve` is third-party library code; it is modelled by its
  documented semantics: return the unique solution of a nonsingular square
  system, and raise `LinAlgError` on a singular one.  `linSolve` below
  realises exactly that over `ℚ` (Cramer's rule, guarded by a determinant
  test).
* Python exceptions are modelled by `Except FemError`:
  `IndexError` on a dangling node/element reference  ↦ `FemError.invalidReference`,
  `numpy.linalg.LinAlgError`                          ↦ `FemError.singularSystem`,
  `AttributeError` on reading `self.reactions` /
  `self.displacements` before `solve()` assigned them ↦ `FemError.unsolvedState`.
* numpy's in-place scatter loops (`K[i, j] += …`) accumulate contributions;
  the accumulated value of an entry is written directly as the finite sum of
  the contributions scattered into it, which is the loop's net effect.
  numpy raises `IndexError` the moment an out-of-range index is used inside
  `assemble_global_matrix`; since the exception aborts `solve` before any
  result is stored, this is modelled by the up-front reference check
  `assembleOK` guarding `solve` (observationally equivalent: same error, no
  partial state escapes either way).
* The unused `material`/`section` dictionaries of `ContinuousBridgeFEM.__init__`
  are not modelled.
-/

/-- Error conditions of the solver, mapping the Python exceptions actually
raised by `simple_fem_bridge_demo.py` to the spec's error names. -/
inductive FemError where
  /-- `numpy.linalg.LinAlgError` from `np.linalg.solve` on a singular reduced
  system (spec: `SingularSystem`). -/
  | singularSystem : FemError
  /-- `IndexError` from indexing `self.nodes` / `self.elements` / a numpy
  vector with a non-existent id (spec: `InvalidReference`). -/
  | invalidReference : FemError
  /-- `AttributeError` from reading `self.reactions` / `self.displacements`
  before `solve()` assigned them (spec: `UnsolvedStateError`). -/
  | unsolvedState : FemError
deriving DecidableEq, Repr

/-- `class SimpleFEMBeam` (lines 19–35): a beam element with length `L`,
elastic modulus `E`, cross-section area `A` and second moment of area `I`. -/
structure SimpleFEMBeam where
  L : ℚ
  E : ℚ
  A : ℚ
  I : ℚ
deriving DecidableEq, Repr

/-- `SimpleFEMBeam.stiffness_matrix` (lines 37–80): the 6×6 element stiffness
matrix, entry by entry exactly as assigned in the source (all unassigned
entries stay `0`); the temporaries `EI_L3 = 12EI/L³`, `EI_L2 = 6EI/L²`,
`EI_L = 4EI/L`, `EI_L_2 = 2EI/L` are inlined. -/
def SimpleFEMBeam.stiffness_matrix (b : SimpleFEMBeam) : Fin 6 → Fin 6 → ℚ :=
  fun i j =>
    match i.val, j.val with
    | 0, 0 => b.E * b.A / b.L
    | 0, 3 => -(b.E * b.A / b.L)
    | 3, 0 => -(b.E * b.A / b.L)
    | 3, 3 => b.E * b.A / b.L
    | 1, 1 => 12 * b.E * b.I / b.L ^ 3
    | 1, 2 => 6 * b.E * b.I / b.L ^ 2
    | 1, 4 => -(12 * b.E * b.I / b.L ^ 3)
    | 1, 5 => 6 * b.E * b.I / b.L ^ 2
    | 2, 1 => 6 * b.E * b.I / b.L ^ 2
    | 2, 2 => 4 * b.E * b.I / b.L
    | 2, 4 => -(6 * b.E * b.I / b.L ^ 2)
    | 2, 5 => 2 * b.E * b.I / b.L
    | 4, 1 => -(12 * b.E * b.I / b.L ^ 3)
    | 4, 2 => -(6 * b.E * b.I / b.L ^ 2)
    | 4, 4 => 12 * b.E * b.I / b.L ^ 3
    | 4, 5 => -(6 * b.E * b.I / b.L ^ 2)
    | 5, 1 => 6 * b.E * b.I / b.L ^ 2
    | 5, 2 => 2 * b.E * b.I / b.L
    | 5, 4 => -(6 * b.E * b.I / b.L ^ 2)
    | 5, 5 => 4 * b.E * b.I / b.L
    | _, _ => 0

/-- `SimpleFEMBeam.equivalent_nodal_loads` (lines 82–93): equivalent nodal
loads of a uniform distributed transverse load `q`:
`f[1] = qL/2`, `f[2] = qL²/12`, `f[4] = qL/2`, `f[5] = -qL²/12`, rest `0`. -/
def SimpleFEMBeam.equivalent_nodal_loads (b : SimpleFEMBeam) (q : ℚ) :
    Fin 6 → ℚ :=
  fun i =>
    match i.val with
    | 1 => q * b.L / 2
    | 2 => q * b.L ^ 2 / 12
    | 4 => q * b.L / 2
    | 5 => -(q * b.L ^ 2 / 12)
    | _ => 0

/-- An element record as appended by `add_element` (lines 117–124): two node
ids, the derived length, and the section constants. -/
structure Element where
  node1 : ℕ
  node2 : ℕ
  length : ℚ
  E : ℚ
  A : ℚ
  I : ℚ
deriving DecidableEq, Repr

/-- A support record as appended by `add_support` (lines 127–135): a node id
and the per-DOF constraint flags `[ux, uy, rz]` (the demo passes `1`/`0`;
modelled as `Bool`, matching Python truthiness). -/
structure Support where
  node : ℕ
  constraints : List Bool
deriving DecidableEq, Repr

/-- A load record as appended by `add_distributed_load` / `add_point_load`
(lines 137–151). -/
inductive Load where
  | distributed (element : ℕ) (value : ℚ) : Load
  | point (node : ℕ) (fx fy mz : ℚ) : Load
deriving DecidableEq, Repr

/-- One record of the summary returned by `get_support_reactions`
(lines 265–270). -/
structure SupportReaction where
  node : ℕ
  Rx : ℚ
  Ry : ℚ
  Mz : ℚ
deriving DecidableEq, Repr

/-- `class ContinuousBridgeFEM` state (lines 98–104).  `displacements` and
`reactions` are the attributes assigned only by `solve` (lines 252–253);
before that assignment they do not exist on the Python object, modelled here
as `none`. -/
structure ContinuousBridgeFEM where
  nodes : List (ℚ × ℚ)
  elements : List Element
  supports : List Support
  loads : List Load
  displacements : Option (ℕ → ℚ)
  reactions : Option (ℕ → ℚ)

/-- `ContinuousBridgeFEM.__init__` (lines 98–104): empty model, no results. -/
def initModel : ContinuousBridgeFEM :=
  { nodes := [], elements := [], supports := [], loads := []
    displacements := none, reactions := none }

/-- Executable rational square root modelling `np.sqrt` in `add_element`:
exact whenever the argument is the square of a rational (the only case
exercised by the claims, whose node configurations are collinear). -/
def ratSqrt (x : ℚ) : ℚ :=
  (Nat.sqrt x.num.toNat : ℚ) / (Nat.sqrt x.den : ℚ)

/-- `add_node` (lines 106–109): append the position, return the new id
(`len(self.nodes) - 1`). -/
def add_node (m : ContinuousBridgeFEM) (x y : ℚ) : ContinuousBridgeFEM × ℕ :=
  ({ m with nodes := m.nodes ++ [(x, y)] }, m.nodes.length)

/-- `add_element` (lines 111–125): look both node positions up (Python raises
`IndexError` for a non-existent id), derive the length as the Euclidean
distance, append the element record, return the new id. -/
def add_element (m : ContinuousBridgeFEM) (node1 node2 : ℕ) (E A I : ℚ) :
    Except FemError (ContinuousBridgeFEM × ℕ) :=
  match m.nodes.get? node1, m.nodes.get? node2 with
  | some (x1, y1), some (x2, y2) =>
    Except.ok
      ({ m with elements := m.elements ++
          [{ node1 := node1, node2 := node2
             length := ratSqrt ((x2 - x1) ^ 2 + (y2 - y1) ^ 2)
             E := E, A := A, I := I }] },
       m.elements.length)
  | _, _ => Except.error FemError.invalidReference

/-- `add_support` (lines 127–135): append a support record; no validation. -/
def add_support (m : ContinuousBridgeFEM) (node_id : ℕ)
    (constraints : List Bool) : ContinuousBridgeFEM :=
  { m with supports := m.supports ++ [{ node := node_id, constraints := constraints }] }

/-- `add_distributed_load` (lines 137–143): append a load record; the
element id is NOT validated here (no lookup happens at construction time). -/
def add_distributed_load (m : ContinuousBridgeFEM) (element_id : ℕ) (q : ℚ) :
    ContinuousBridgeFEM :=
  { m with loads := m.loads ++ [Load.distributed element_id q] }

/-- `add_point_load` (lines 145–151): append a load record; the node id is
NOT validated here. -/
def add_point_load (m : ContinuousBridgeFEM) (node_id : ℕ) (fx fy mz : ℚ) :
    ContinuousBridgeFEM :=
  { m with loads := m.loads ++ [Load.point node_id fx fy mz] }

/-- The per-element DOF map of `assemble_global_matrix` (lines 169–172):
`[node1*3, node1*3+1, node1*3+2, node2*3, node2*3+1, node2*3+2]`. -/
def dofMap (e : Element) : Fin 6 → ℕ :=
  fun p =>
    match p.val with
    | 0 => e.node1 * 3
    | 1 => e.node1 * 3 + 1
    | 2 => e.node1 * 3 + 2
    | 3 => e.node2 * 3
    | 4 => e.node2 * 3 + 1
    | _ => e.node2 * 3 + 2

/-- The beam object built from an element record in the assembly loops
(lines 164–165, 187–188): `SimpleFEMBeam(element['length'], E, A, I)`. -/
def beamOf (e : Element) : SimpleFEMBeam :=
  { L := e.length, E := e.E, A := e.A, I := e.I }

/-- Global stiffness matrix of `assemble_global_matrix` (lines 158–177).
Entry `(i, j)` is the net effect of the scatter-add loop
`K_global[dof_map[p], dof_map[q]] += k_local[p, q]` over all elements:
the sum of every local entry scattered into `(i, j)`. -/
def K_of (elements : List Element) : ℕ → ℕ → ℚ :=
  fun i j =>
    (elements.map (fun e =>
      ∑ p : Fin 6, ∑ q : Fin 6,
        if dofMap e p = i ∧ dofMap e q = j then
          (beamOf e).stiffness_matrix p q
        else 0)).sum

/-- Global load vector of `assemble_global_matrix` (lines 159, 180–204):
distributed loads scatter the element's equivalent nodal loads through its
DOF map; point loads add `(fx, fy, mz)` at the node's three DOFs.  The
`none` branch is unreachable whenever `assembleOK` holds (Python raises
`IndexError` there, see `assembleOK`). -/
def F_of (elements : List Element) (loads : List Load) : ℕ → ℚ :=
  fun i =>
    (loads.map (fun l =>
      match l with
      | Load.distributed eid q =>
        match elements.get? eid with
        | some e =>
          ∑ p : Fin 6,
            if dofMap e p = i then (beamOf e).equivalent_nodal_loads q p else 0
        | none => 0
      | Load.point nd fx fy mz =>
        (if nd * 3 = i then fx else 0) + (if nd * 3 + 1 = i then fy else 0) +
          (if nd * 3 + 2 = i then mz else 0))).sum

/-- Reference validity of one element inside `assemble_global_matrix`: its
scatter indices stay inside the `n_nodes*3`-sized numpy arrays. -/
def elementOK (n_nodes : ℕ) (e : Element) : Bool :=
  decide (e.node1 < n_nodes) && decide (e.node2 < n_nodes)

/-- Reference validity of one load inside `assemble_global_matrix`:
`self.elements[element_id]` (line 184) and `F_global[node_id*3 …]`
(lines 202–204) must be in range. -/
def loadOK (n_nodes n_elements : ℕ) : Load → Bool
  | Load.distributed eid _ => decide (eid < n_elements)
  | Load.point nd _ _ _ => decide (nd < n_nodes)

/-- All references touched by `assemble_global_matrix` are in range; when
this fails Python raises `IndexError` during the assembly loops, aborting
`solve` with no observable partial state. -/
def assembleOK (m : ContinuousBridgeFEM) : Bool :=
  m.elements.all (elementOK m.nodes.length) &&
    m.loads.all (loadOK m.nodes.length m.elements.length)

/-- `assemble_global_matrix` (lines 153–206): the assembled `(K, F)` pair,
or the `IndexError` raised on a dangling reference. -/
def assemble_global_matrix (m : ContinuousBridgeFEM) :
    Except FemError ((ℕ → ℕ → ℚ) × (ℕ → ℚ)) :=
  if assembleOK m then Except.ok (K_of m.elements, F_of m.elements m.loads)
  else Except.error FemError.invalidReference

/-- The constrained DOFs contributed by one support, in the order of the
inner loop `for i, constrained in enumerate(constraints): if constrained:`
(lines 218–222). -/
def supportDofs (node : ℕ) : ℕ → List Bool → List ℕ
  | _, [] => []
  | i, c :: cs => (if c then [node * 3 + i] else []) ++ supportDofs node (i + 1) cs

/-- All constrained DOFs in the order visited by `apply_boundary_conditions`
(lines 214–222): supports in declaration order, flags in index order. -/
def constrainedDofs (supports : List Support) : List ℕ :=
  (supports.map (fun s => supportDofs s.node 0 s.constraints)).flatten

/-- The free-DOF list of `apply_boundary_conditions` (lines 210–222):
start from `list(range(n_dof))` and run
`if dof in free_dof: free_dof.remove(dof)` for every constrained DOF
(`List.erase` is the identity when the DOF is already gone, exactly like the
guarded `remove`). -/
def free_dof_list (n_dof : ℕ) (supports : List Support) : List ℕ :=
  (constrainedDofs supports).foldl (fun l d => l.erase d) (List.range n_dof)

/-- The free-DOF list of a model; `n_dof = n_nodes * 3` (line 156). -/
def freeList (m : ContinuousBridgeFEM) : List ℕ :=
  free_dof_list (m.nodes.length * 3) m.supports

/-- Reduced stiffness matrix `K[np.ix_(free_dof, free_dof)]` (line 225). -/
def KffL (elements : List Element) (fd : List ℕ) :
    Matrix (Fin fd.length) (Fin fd.length) ℚ :=
  Matrix.of fun i j => K_of elements (fd.get i) (fd.get j)

/-- Reduced load vector `F[free_dof]` (line 226). -/
def FffL (elements : List Element) (loads : List Load) (fd : List ℕ) :
    Fin fd.length → ℚ :=
  fun i => F_of elements loads (fd.get i)

/-- Model of `np.linalg.solve` (third-party code, line 241): the unique
solution of a nonsingular square system, `none` (`LinAlgError`) when the
matrix is singular.  Realised executably by Cramer's rule. -/
def linSolve {n : ℕ} (K : Matrix (Fin n) (Fin n) ℚ) (b : Fin n → ℚ) :
    Option (Fin n → ℚ) :=
  if K.det = 0 then none else some (K.det⁻¹ • K.cramer b)

/-- Scatter of the reduced solution back into the full displacement vector
(lines 244–247): `U_global = zeros; U_global[free_dof[i]] = U_reduced[i]`. -/
def scatterL (fd : List ℕ) (uf : Fin fd.length → ℚ) : ℕ → ℚ :=
  fun d =>
    if h : d ∈ fd then uf ⟨fd.indexOf d, List.indexOf_lt_length.mpr h⟩ else 0

/-- The numerical core of `solve` (lines 236–250), parameterised by the data
it actually reads: reduce, solve, scatter, and recover
`R_global = K_global @ U_global - F_global` row by row. -/
def solveCore (n_nodes : ℕ) (elements : List Element) (loads : List Load)
    (fd : List ℕ) : Option ((ℕ → ℚ) × (ℕ → ℚ)) :=
  match linSolve (KffL elements fd) (FffL elements loads fd) with
  | none => none
  | some uf =>
    let U : ℕ → ℚ := scatterL fd uf
    some (U, fun i =>
      (∑ j ∈ Finset.range (n_nodes * 3), K_of elements i j * U j) -
        F_of elements loads i)

/-- `solve` (lines 230–255): assemble (raising `IndexError` on a dangling
reference), reduce, solve (raising `LinAlgError` on a singular system),
scatter, recover reactions, store both result vectors on the model and
return them.  On any error nothing is stored. -/
def solve (m : ContinuousBridgeFEM) :
    Except FemError (ContinuousBridgeFEM × (ℕ → ℚ) × (ℕ → ℚ)) :=
  if assembleOK m then
    match solveCore m.nodes.length m.elements m.loads (freeList m) with
    | none => Except.error FemError.singularSystem
    | some (U, R) =>
      Except.ok
        ({ m with displacements := some U, reactions := some R }, U, R)
  else Except.error FemError.invalidReference

/-- The per-support record of `get_support_reactions` (lines 265–270): each
component is read from `R` only when the corresponding constraint flag is
set, and reported as literal `0` otherwise. -/
def maskReaction (R : ℕ → ℚ) (s : Support) : SupportReaction :=
  { node := s.node
    Rx := if s.constraints.getD 0 false then R (s.node * 3) else 0
    Ry := if s.constraints.getD 1 false then R (s.node * 3 + 1) else 0
    Mz := if s.constraints.getD 2 false then R (s.node * 3 + 2) else 0 }

/-- `get_support_reactions` (lines 257–273): reading `self.reactions` before
`solve` assigned it raises `AttributeError` (spec: `UnsolvedStateError`);
afterwards the masked per-support summary is returned in declaration
order. -/
def get_support_reactions (m : ContinuousBridgeFEM) :
    Except FemError (List SupportReaction) :=
  match m.reactions with
  | none => Except.error FemError.unsolvedState
  | some R => Except.ok (m.supports.map (maskReaction R))

/-! ## The canonical single-span simply-supported beam (claim C1)

Two nodes a distance `L` apart, one element, a pin (`[1,1,0]`) at node 0, a
roller (`[0,1,0]`) at node 1, and a uniform distributed transverse load `q`
on the element — the configuration of spec §8's first testable property. -/

/-- The element record produced by `add_element` for the single-span beam
(its derived length is `L` for nodes `(x0, 0)` and `(x0 + L, 0)`, `L > 0`). -/
def beamElem (L E A I : ℚ) : Element :=
  { node1 := 0, node2 := 1, length := L, E := E, A := A, I := I }

/-- The fully built single-span model: the state reached by
`add_node, add_node, add_element, add_support (pin), add_support (roller),
add_distributed_load` on a fresh model. -/
def beamModel (x0 L E A I q : ℚ) : ContinuousBridgeFEM :=
  { nodes := [(x0, 0), (x0 + L, 0)]
    elements := [beamElem L E A I]
    supports := [{ node := 0, constraints := [true, true, false] },
                 { node := 1, constraints := [false, true, false] }]
    loads := [Load.distributed 0 q]
    displacements := none, reactions := none }

/-- Closed-form solution of the beam's reduced system (free DOFs
`[2, 3, 5]` = rotation at node 0, axial at node 1, rotation at node 1):
end rotations `±qL³/(24EI)`, no axial displacement. -/
def beamUf (L E A I q : ℚ) : Fin 3 → ℚ :=
  fun i =>
    match i.val with
    | 0 => q * L ^ 3 / (24 * E * I)
    | 1 => 0
    | _ => -(q * L ^ 3 / (24 * E * I))

/-- The beam's reduced stiffness matrix, with its index type normalised to
`Fin 3` (the free-DOF list has length 3). -/
def KB (x0 L E A I q : ℚ) : Matrix (Fin 3) (Fin 3) ℚ :=
  KffL (beamModel x0 L E A I q).elements (freeList (beamModel x0 L E A I q))

/-- The beam's reduced load vector, index type normalised to `Fin 3`. -/
def FB (x0 L E A I q : ℚ) : Fin 3 → ℚ :=
  FffL (beamModel x0 L E A I q).elements (beamModel x0 L E A I q).loads
    (freeList (beamModel x0 L E A I q))

/-- The full displacement vector `solve` returns on the beam model. -/
def beamU (x0 L E A I q : ℚ) : ℕ → ℚ :=
  scatterL (freeList (beamModel x0 L E A I q)) (beamUf L E A I q)

/-- The full reaction vector `solve` returns on the beam model. -/
def beamR (x0 L E A I q : ℚ) : ℕ → ℚ :=
  fun i =>
    (∑ j ∈ Finset.range ((beamModel x0 L E A I q).nodes.length * 3),
      K_of (beamModel x0 L E A I q).elements i j * beamU x0 L E A I q j) -
      F_of (beamModel x0 L E A I q).elements (beamModel x0 L E A I q).loads i

/-- A 2-node, 1-element model with no supports at all: the free-floating
structure of claim C6. -/
def noSupportModel : ContinuousBridgeFEM :=
  { nodes := [(0, 0), (1, 0)]
    elements := [beamElem 1 1 1 1]
    supports := [], loads := []
    displacements := none, reactions := none }

/-! ## General lemmas about the embedded solver -/

/-- The element stiffness matrix is symmetric (entry check over all 36
index pairs). -/
lemma stiffness_symm (b : SimpleFEMBeam) (p q : Fin 6) :
    b.stiffness_matrix p q = b.stiffness_matrix q p := by
  fin_cases p <;> fin_cases q <;> rfl

/-- In every row of the element stiffness matrix, the two transverse columns
(1 and 4) cancel: a uniform transverse translation is force-free. -/
lemma stiffness_transverse_rowsum (b : SimpleFEMBeam) (p : Fin 6) :
    b.stiffness_matrix p 1 + b.stiffness_matrix p 4 = 0 := by
  fin_cases p <;> (simp [SimpleFEMBeam.stiffness_matrix]; try ring)

/-- Sequentially erasing the members of `ds` from a duplicate-free list is
the same as filtering them out. -/
lemma foldl_erase_eq_filter :
    ∀ (ds : List ℕ) (l : List ℕ), l.Nodup →
      ds.foldl (fun l d => l.erase d) l = l.filter (fun a => decide (a ∉ ds))
  | [], l, _ => by simp
  | d :: ds, l, hl => by
    rw [List.foldl_cons, foldl_erase_eq_filter ds _ (hl.erase d),
      hl.erase_eq_filter d, List.filter_filter]
    apply List.filter_congr
    intro a _
    by_cases h1 : a = d <;> by_cases h2 : a ∈ ds <;> simp [h1, h2]

/-- Membership in the free-DOF list: inside the DOF range and not
constrained by any support. -/
lemma mem_free_dof_list {n_dof : ℕ} {supports : List Support} {d : ℕ} :
    d ∈ free_dof_list n_dof supports ↔
      d < n_dof ∧ d ∉ constrainedDofs supports := by
  rw [free_dof_list, foldl_erase_eq_filter _ _ (List.nodup_range n_dof)]
  simp [List.mem_filter, List.mem_range]

/-- Membership in a model's free-DOF list. -/
lemma mem_freeList {m : ContinuousBridgeFEM} {d : ℕ} :
    d ∈ freeList m ↔
      d < m.nodes.length * 3 ∧ d ∉ constrainedDofs m.supports :=
  mem_free_dof_list

/-- The free-DOF list never contains duplicates. -/
lemma nodup_free_dof_list (n_dof : ℕ) (supports : List Support) :
    (free_dof_list n_dof supports).Nodup := by
  rw [free_dof_list, foldl_erase_eq_filter _ _ (List.nodup_range n_dof)]
  exact (List.nodup_range n_dof).filter _

/-- Scattering leaves a DOF outside the free list at zero. -/
lemma scatterL_not_mem {fd : List ℕ} {uf : Fin fd.length → ℚ} {d : ℕ}
    (h : d ∉ fd) : scatterL fd uf d = 0 := dif_neg h

/-- Scattering puts `uf i` at the `i`-th free DOF (duplicate-free list). -/
lemma scatterL_get {fd : List ℕ} (hnd : fd.Nodup) (uf : Fin fd.length → ℚ)
    (i : Fin fd.length) : scatterL fd uf (fd.get i) = uf i := by
  have hmem : fd.get i ∈ fd := fd.get_mem i.1 i.2
  rw [scatterL, dif_pos hmem]
  exact congrArg uf (List.nodup_iff_injective_get.mp hnd (List.indexOf_get _))

/-- Soundness of the linear-solver model: a returned vector solves the
system. -/
lemma linSolve_mulVec {n : ℕ} {K : Matrix (Fin n) (Fin n) ℚ}
    {b u : Fin n → ℚ} (h : linSolve K b = some u) : K.mulVec u = b := by
  rw [linSolve] at h
  by_cases hd : K.det = 0
  · rw [if_pos hd] at h; cases h
  · rw [if_neg hd] at h
    obtain rfl : K.det⁻¹ • K.cramer b = u := Option.some.inj h
    rw [Matrix.mulVec_smul, Matrix.mulVec_cramer, smul_smul,
      inv_mul_cancel₀ hd, one_smul]

/-- The linear-solver model reports failure exactly on a singular matrix. -/
lemma linSolve_of_det_eq_zero {n : ℕ} {K : Matrix (Fin n) (Fin n) ℚ}
    (b : Fin n → ℚ) (h : K.det = 0) : linSolve K b = none := by
  rw [linSolve, if_pos h]

/-- Completeness of the linear-solver model: on a nonsingular matrix it
returns the (unique) solution. -/
lemma linSolve_eq_some {n : ℕ} {K : Matrix (Fin n) (Fin n) ℚ}
    {b u : Fin n → ℚ} (hdet : K.det ≠ 0) (hu : K.mulVec u = b) :
    linSolve K b = some u := by
  rw [linSolve, if_neg hdet]
  congr 1
  by_contra hne
  have hsol : K.mulVec (K.det⁻¹ • K.cramer b) = b := by
    rw [Matrix.mulVec_smul, Matrix.mulVec_cramer, smul_smul,
      inv_mul_cancel₀ hdet, one_smul]
  have hker : K.mulVec (K.det⁻¹ • K.cramer b - u) = 0 := by
    rw [Matrix.mulVec_sub, hsol, hu, sub_self]
  exact hdet (Matrix.exists_mulVec_eq_zero_iff.mp
    ⟨_, sub_ne_zero.mpr hne, hker⟩)

/-- A mapped list sum as a sum over positions. -/
lemma sum_map_eq_sum_get {β : Type} (f : β → ℚ) (l : List β) :
    (l.map f).sum = ∑ i : Fin l.length, f (l.get i) := by
  conv_lhs => rw [← List.ofFn_get l]
  rw [List.map_ofFn, List.sum_ofFn]
  rfl

/-- A sum over `List.range` as a `Finset.range` sum. -/
lemma sum_range_eq_sum_map (f : ℕ → ℚ) :
    ∀ n : ℕ, ((List.range n).map f).sum = ∑ j ∈ Finset.range n, f j
  | 0 => by simp
  | n + 1 => by
    simp [List.range_succ, Finset.sum_range_succ, sum_range_eq_sum_map f n]

/-- A full-range sum against a scattered vector collapses to a sum over the
free positions. -/
lemma sum_mul_scatter {n_dof : ℕ} (g : ℕ → ℚ) {fd : List ℕ}
    (hnd : fd.Nodup) (hsub : ∀ d ∈ fd, d < n_dof) (uf : Fin fd.length → ℚ) :
    ∑ j ∈ Finset.range n_dof, g j * scatterL fd uf j
      = ∑ p : Fin fd.length, g (fd.get p) * uf p := by
  have h1 : ∑ j ∈ (Finset.range n_dof).filter (fun j => j ∈ fd),
      g j * scatterL fd uf j = ∑ j ∈ Finset.range n_dof, g j * scatterL fd uf j := by
    apply Finset.sum_filter_of_ne
    intro j _ hne
    by_contra hmem
    exact hne (by rw [scatterL_not_mem hmem, mul_zero])
  have h2 : (Finset.range n_dof).filter (fun j => j ∈ fd) = fd.toFinset := by
    ext a
    simp only [Finset.mem_filter, Finset.mem_range, List.mem_toFinset]
    exact ⟨fun h => h.2, fun h => ⟨hsub a h, h⟩⟩
  rw [← h1, h2, List.sum_toFinset _ hnd, sum_map_eq_sum_get]
  exact Finset.sum_congr rfl fun p _ => by rw [scatterL_get hnd]

/-- The assembled global stiffness matrix is symmetric (claim C2's core). -/
lemma K_of_symm (elements : List Element) (i j : ℕ) :
    K_of elements i j = K_of elements j i := by
  unfold K_of
  apply congrArg List.sum
  apply List.map_congr_left
  intro e _
  rw [Finset.sum_comm]
  refine Finset.sum_congr rfl fun p _ => Finset.sum_congr rfl fun q _ => ?_
  rw [stiffness_symm]
  exact if_congr and_comm rfl rfl

/-- The DOF map of a valid element stays inside the global DOF range. -/
lemma dofMap_lt {n_nodes : ℕ} {e : Element} (h1 : e.node1 < n_nodes)
    (h2 : e.node2 < n_nodes) (p : Fin 6) : dofMap e p < n_nodes * 3 := by
  fin_cases p <;> simp [dofMap] <;> omega

/-- The DOF map preserves the DOF kind (`axial`/`transverse`/`rotation`)
as residue modulo 3. -/
lemma dofMap_mod (e : Element) (p : Fin 6) : dofMap e p % 3 = p.val % 3 := by
  fin_cases p <;> simp [dofMap] <;> omega

/-- One element's scatter block annihilates the uniform transverse
translation vector (value 1 at every DOF `≡ 1 (mod 3)`). -/
lemma element_row_transverse_sum {n_nodes : ℕ} {e : Element}
    (h1 : e.node1 < n_nodes) (h2 : e.node2 < n_nodes) (i : ℕ) :
    ∑ j ∈ Finset.range (n_nodes * 3),
      (∑ p : Fin 6, ∑ q : Fin 6,
        if dofMap e p = i ∧ dofMap e q = j then (beamOf e).stiffness_matrix p q
        else 0) *
      (if j % 3 = 1 then (1 : ℚ) else 0) = 0 := by
  simp_rw [Finset.sum_mul]
  rw [Finset.sum_comm]
  refine Finset.sum_eq_zero fun p _ => ?_
  rw [Finset.sum_comm]
  by_cases hdp : dofMap e p = i
  · have hinner : ∀ q : Fin 6,
        ∑ j ∈ Finset.range (n_nodes * 3),
          (if dofMap e p = i ∧ dofMap e q = j then
            (beamOf e).stiffness_matrix p q else 0) *
          (if j % 3 = 1 then (1 : ℚ) else 0)
        = (beamOf e).stiffness_matrix p q *
            (if q.val % 3 = 1 then (1 : ℚ) else 0) := by
      intro q
      simp_rw [hdp, true_and, ite_mul, zero_mul]
      rw [Finset.sum_ite_eq (Finset.range (n_nodes * 3)) (dofMap e q)
        (fun j => (beamOf e).stiffness_matrix p q *
          (if j % 3 = 1 then (1 : ℚ) else 0))]
      rw [if_pos (Finset.mem_range.mpr (dofMap_lt h1 h2 q)), dofMap_mod]
    simp_rw [hinner]
    rw [Fin.sum_univ_six]
    norm_num [show ((3 : Fin 6) : ℕ) = 3 from rfl,
      show ((4 : Fin 6) : ℕ) = 4 from rfl, show ((5 : Fin 6) : ℕ) = 5 from rfl]
    simpa using stiffness_transverse_rowsum (beamOf e) p
  · refine Finset.sum_eq_zero fun q _ => Finset.sum_eq_zero fun j _ => ?_
    rw [if_neg (fun hc => hdp hc.1), zero_mul]

/-- The assembled global stiffness matrix annihilates the uniform transverse
translation vector: row by row, the columns `≡ 1 (mod 3)` sum to zero. -/
lemma K_row_transverse_sum {n_nodes : ℕ} :
    ∀ {elements : List Element},
      elements.all (elementOK n_nodes) = true → ∀ i : ℕ,
      ∑ j ∈ Finset.range (n_nodes * 3),
        K_of elements i j * (if j % 3 = 1 then (1 : ℚ) else 0) = 0 := by
  intro elements
  induction elements with
  | nil => intro _ i; simp [K_of]
  | cons e es ih =>
    intro hall i
    rw [List.all_cons, Bool.and_eq_true] at hall
    rw [elementOK, Bool.and_eq_true, decide_eq_true_eq, decide_eq_true_eq]
      at hall
    have hKc : ∀ j : ℕ, K_of (e :: es) i j
        = (∑ p : Fin 6, ∑ q : Fin 6,
            if dofMap e p = i ∧ dofMap e q = j then
              (beamOf e).stiffness_matrix p q else 0) + K_of es i j := by
      intro j; rw [K_of, List.map_cons, List.sum_cons]; rfl
    simp_rw [hKc, add_mul, Finset.sum_add_distrib]
    rw [element_row_transverse_sum hall.1.1 hall.1.2 i, ih hall.2 i, add_zero]

/-- With no supports at all the free list is the full DOF range, and the
reduced matrix of any nonempty valid model is singular (it has the uniform
transverse translation in its kernel). -/
lemma KffL_det_zero_of_no_supports {m : ContinuousBridgeFEM}
    (hel : m.elements.all (elementOK m.nodes.length) = true)
    (hsup : m.supports = []) (hn : 1 ≤ m.nodes.length) :
    (KffL m.elements (freeList m)).det = 0 := by
  have hfd : freeList m = List.range (m.nodes.length * 3) := by
    simp [freeList, free_dof_list, constrainedDofs, hsup]
  rw [← Matrix.exists_mulVec_eq_zero_iff]
  refine ⟨fun i => if (freeList m).get i % 3 = 1 then 1 else 0, ?_, ?_⟩
  · have h1 : (1 : ℕ) ∈ freeList m := by
      rw [hfd, List.mem_range]; omega
    obtain ⟨i0, hi0⟩ := List.mem_iff_get.mp h1
    intro hzero
    have h2 := congrFun hzero i0
    rw [hi0] at h2
    simp at h2
  · funext i
    show ∑ j, KffL m.elements (freeList m) i j *
      (if (freeList m).get j % 3 = 1 then (1 : ℚ) else 0) = 0
    have hrow : ∀ j, KffL m.elements (freeList m) i j *
        (if (freeList m).get j % 3 = 1 then (1 : ℚ) else 0)
        = (fun d => K_of m.elements ((freeList m).get i) d *
            (if d % 3 = 1 then (1 : ℚ) else 0)) ((freeList m).get j) := by
      intro j; rfl
    simp_rw [hrow]
    rw [← sum_map_eq_sum_get (fun d => K_of m.elements ((freeList m).get i) d *
      (if d % 3 = 1 then (1 : ℚ) else 0)) (freeList m)]
    generalize (freeList m).get i = d
    rw [hfd, sum_range_eq_sum_map]
    exact K_row_transverse_sum hel d

/-- Inversion of a successful `solve`: the assembly check passed, the
reduced system was solvable, and the returned vectors are the scattered
solution and the recovered reactions. -/
lemma solve_ok_inv {m m' : ContinuousBridgeFEM} {U R : ℕ → ℚ}
    (h : solve m = Except.ok (m', U, R)) :
    assembleOK m = true ∧
    ∃ uf, linSolve (KffL m.elements (freeList m))
        (FffL m.elements m.loads (freeList m)) = some uf ∧
      U = scatterL (freeList m) uf ∧
      (∀ i, R i = (∑ j ∈ Finset.range (m.nodes.length * 3),
          K_of m.elements i j * U j) - F_of m.elements m.loads i) ∧
      m' = { m with displacements := some U, reactions := some R } := by
  rw [solve] at h
  by_cases hA : assembleOK m
  · rw [if_pos hA] at h
    cases hls : linSolve (KffL m.elements (freeList m))
        (FffL m.elements m.loads (freeList m)) with
    | none =>
      have hcore : solveCore m.nodes.length m.elements m.loads (freeList m)
          = none := by rw [solveCore, hls]
      rw [hcore] at h
      cases h
    | some uf =>
      have hcore : solveCore m.nodes.length m.elements m.loads (freeList m)
          = some (scatterL (freeList m) uf, fun i =>
              (∑ j ∈ Finset.range (m.nodes.length * 3),
                K_of m.elements i j * scatterL (freeList m) uf j) -
                F_of m.elements m.loads i) := by
        rw [solveCore, hls]
      rw [hcore] at h
      simp only [Except.ok.injEq, Prod.mk.injEq] at h
      obtain ⟨hm', hU, hR⟩ := h
      refine ⟨hA, uf, rfl, hU.symm, ?_, ?_⟩
      · intro i
        rw [← hR, hU]
      · rw [← hm', ← hU, ← hR]
  · rw [if_neg hA] at h
    cases h

/-! ## Lemmas about the canonical single-span beam -/

/-- `ratSqrt` is exact on squares: the modelled `np.sqrt` returns `|x|` on
`x * x`. -/
lemma ratSqrt_sq (x : ℚ) : ratSqrt (x * x) = |x| := by
  rw [ratSqrt, Rat.mul_self_num, Rat.mul_self_den]
  rw [show x.num * x.num = ((x.num.natAbs * x.num.natAbs : ℕ) : ℤ) from
    Int.natAbs_mul_self.symm]
  rw [Int.toNat_natCast, Nat.sqrt_eq, Nat.sqrt_eq]
  conv_rhs => rw [← Rat.num_div_den x]
  rw [abs_div]
  congr 1
  · rw [Int.cast_natAbs, Int.cast_abs]
  · exact (abs_of_nonneg (by positivity : (0 : ℚ) ≤ (x.den : ℚ))).symm

/-- A doubly indicated double sum over `Fin 6` collapses to the indicated
entry. -/
lemma double_sum_ite (f : Fin 6 → Fin 6 → ℚ) (i j : Fin 6) :
    (∑ p : Fin 6, ∑ q : Fin 6,
      if p.val = i.val ∧ q.val = j.val then f p q else 0) = f i j := by
  simp_rw [Fin.val_eq_val]
  have h1 : ∀ p : Fin 6, (∑ q : Fin 6, if p = i ∧ q = j then f p q else 0)
      = if p = i then f p j else 0 := by
    intro p
    by_cases hp : p = i <;> simp [hp]
  simp_rw [h1]
  simp

/-- The single beam element's DOF map is the identity on `0..5`. -/
lemma dofMap_beamElem (L E A I : ℚ) (p : Fin 6) :
    dofMap (beamElem L E A I) p = p.val := by
  fin_cases p <;> rfl

/-- Entries of the beam model's assembled global stiffness matrix: the
single element's DOF map is the identity on `0..5`, so the global matrix
restricted to `0..5` is the element stiffness matrix. -/
lemma beam_K (L E A I : ℚ) (i j : Fin 6) :
    K_of [beamElem L E A I] i.val j.val
      = ({ L := L, E := E, A := A, I := I } : SimpleFEMBeam).stiffness_matrix i j := by
  simp only [K_of, List.map_cons, List.map_nil, List.sum_cons, List.sum_nil,
    add_zero]
  simp_rw [dofMap_beamElem]
  rw [double_sum_ite]
  rfl

/-- Entries of the beam model's assembled global load vector: the uniform
load's equivalent nodal loads land at DOFs `0..5` unchanged. -/
lemma beam_F (L E A I q : ℚ) (i : Fin 6) :
    F_of [beamElem L E A I] [Load.distributed 0 q] i.val
      = ({ L := L, E := E, A := A, I := I } : SimpleFEMBeam).equivalent_nodal_loads q i := by
  simp only [F_of, List.map_cons, List.map_nil, List.sum_cons, List.sum_nil,
    add_zero, List.get?_cons_zero]
  simp_rw [dofMap_beamElem, Fin.val_eq_val]
  simp
  rfl

/-- The beam's reduced stiffness matrix is nonsingular for positive section
constants: its determinant is `12·E³·A·I²/L³ > 0`. -/
lemma KB_det_ne_zero (x0 L E A I q : ℚ) (hL : 0 < L) (hE : 0 < E)
    (hA : 0 < A) (hI : 0 < I) : (KB x0 L E A I q).det ≠ 0 := by
  have h00 : KB x0 L E A I q 0 0 = 4 * E * I / L := beam_K L E A I 2 2
  have h01 : KB x0 L E A I q 0 1 = 0 := beam_K L E A I 2 3
  have h02 : KB x0 L E A I q 0 2 = 2 * E * I / L := beam_K L E A I 2 5
  have h10 : KB x0 L E A I q 1 0 = 0 := beam_K L E A I 3 2
  have h11 : KB x0 L E A I q 1 1 = E * A / L := beam_K L E A I 3 3
  have h12 : KB x0 L E A I q 1 2 = 0 := beam_K L E A I 3 5
  have h20 : KB x0 L E A I q 2 0 = 2 * E * I / L := beam_K L E A I 5 2
  have h21 : KB x0 L E A I q 2 1 = 0 := beam_K L E A I 5 3
  have h22 : KB x0 L E A I q 2 2 = 4 * E * I / L := beam_K L E A I 5 5
  have hdet : (KB x0 L E A I q).det = 12 * E ^ 3 * A * I ^ 2 / L ^ 3 := by
    rw [Matrix.det_fin_three, h00, h01, h02, h10, h11, h12, h20, h21, h22]
    field_simp
    ring
  rw [hdet]
  have hpos : (0 : ℚ) < 12 * E ^ 3 * A * I ^ 2 / L ^ 3 :=
    div_pos (by positivity) (pow_pos hL 3)
  exact ne_of_gt hpos

/-- The closed-form end rotations solve the beam's reduced system. -/
lemma KB_mulVec_beamUf (x0 L E A I q : ℚ) (hL : 0 < L) (hE : 0 < E)
    (hA : 0 < A) (hI : 0 < I) :
    (KB x0 L E A I q).mulVec (beamUf L E A I q) = FB x0 L E A I q := by
  have h00 : KB x0 L E A I q 0 0 = 4 * E * I / L := beam_K L E A I 2 2
  have h01 : KB x0 L E A I q 0 1 = 0 := beam_K L E A I 2 3
  have h02 : KB x0 L E A I q 0 2 = 2 * E * I / L := beam_K L E A I 2 5
  have h10 : KB x0 L E A I q 1 0 = 0 := beam_K L E A I 3 2
  have h11 : KB x0 L E A I q 1 1 = E * A / L := beam_K L E A I 3 3
  have h12 : KB x0 L E A I q 1 2 = 0 := beam_K L E A I 3 5
  have h20 : KB x0 L E A I q 2 0 = 2 * E * I / L := beam_K L E A I 5 2
  have h21 : KB x0 L E A I q 2 1 = 0 := beam_K L E A I 5 3
  have h22 : KB x0 L E A I q 2 2 = 4 * E * I / L := beam_K L E A I 5 5
  have hF0 : FB x0 L E A I q 0 = q * L ^ 2 / 12 := beam_F L E A I q 2
  have hF1 : FB x0 L E A I q 1 = 0 := beam_F L E A I q 3
  have hF2 : FB x0 L E A I q 2 = -(q * L ^ 2 / 12) := beam_F L E A I q 5
  have hu0 : beamUf L E A I q 0 = q * L ^ 3 / (24 * E * I) := rfl
  have hu1 : beamUf L E A I q 1 = 0 := rfl
  have hu2 : beamUf L E A I q 2 = -(q * L ^ 3 / (24 * E * I)) := rfl
  have hrow0 : (KB x0 L E A I q).mulVec (beamUf L E A I q) 0 = FB x0 L E A I q 0 := by
    simp only [Matrix.mulVec, Matrix.dotProduct]
    rw [Fin.sum_univ_three, h00, h01, h02, hu0, hu1, hu2, hF0]
    field_simp
    ring
  have hrow1 : (KB x0 L E A I q).mulVec (beamUf L E A I q) 1 = FB x0 L E A I q 1 := by
    simp only [Matrix.mulVec, Matrix.dotProduct]
    rw [Fin.sum_univ_three, h10, h11, h12, hu0, hu1, hu2, hF1]
    ring
  have hrow2 : (KB x0 L E A I q).mulVec (beamUf L E A I q) 2 = FB x0 L E A I q 2 := by
    simp only [Matrix.mulVec, Matrix.dotProduct]
    rw [Fin.sum_univ_three, h20, h21, h22, hu0, hu1, hu2, hF2]
    field_simp
    ring
  funext i
  fin_cases i
  · exact hrow0
  · exact hrow1
  · exact hrow2

/-- `solve` on the canonical single-span beam succeeds and returns the
closed-form displacement and reaction vectors. -/
lemma beam_solve (x0 L E A I q : ℚ) (hL : 0 < L) (hE : 0 < E)
    (hA : 0 < A) (hI : 0 < I) :
    solve (beamModel x0 L E A I q)
      = Except.ok
          ({ beamModel x0 L E A I q with
              displacements := some (beamU x0 L E A I q)
              reactions := some (beamR x0 L E A I q) },
            beamU x0 L E A I q, beamR x0 L E A I q) := by
  have hok : assembleOK (beamModel x0 L E A I q) = true := rfl
  have hlin : linSolve
      (KffL (beamModel x0 L E A I q).elements (freeList (beamModel x0 L E A I q)))
      (FffL (beamModel x0 L E A I q).elements (beamModel x0 L E A I q).loads
        (freeList (beamModel x0 L E A I q)))
      = some (beamUf L E A I q) := by
    show linSolve (KB x0 L E A I q) (FB x0 L E A I q) = some (beamUf L E A I q)
    exact linSolve_eq_some (KB_det_ne_zero x0 L E A I q hL hE hA hI)
      (KB_mulVec_beamUf x0 L E A I q hL hE hA hI)
  rw [solve, if_pos hok, solveCore, hlin]
  rfl

/-- The vertical reaction at the beam's pinned node (DOF 1) is `-qL/2`. -/
lemma beam_R1 (x0 L E A I q : ℚ) : beamR x0 L E A I q 1 = -(q * L / 2) := by
  have hU0 : beamU x0 L E A I q 0 = 0 := rfl
  have hU1 : beamU x0 L E A I q 1 = 0 := rfl
  have hU2 : beamU x0 L E A I q 2 = q * L ^ 3 / (24 * E * I) := rfl
  have hU3 : beamU x0 L E A I q 3 = 0 := rfl
  have hU4 : beamU x0 L E A I q 4 = 0 := rfl
  have hU5 : beamU x0 L E A I q 5 = -(q * L ^ 3 / (24 * E * I)) := rfl
  have hK12 : K_of (beamModel x0 L E A I q).elements 1 2 = 6 * E * I / L ^ 2 :=
    beam_K L E A I 1 2
  have hK15 : K_of (beamModel x0 L E A I q).elements 1 5 = 6 * E * I / L ^ 2 :=
    beam_K L E A I 1 5
  have hF1 : F_of (beamModel x0 L E A I q).elements (beamModel x0 L E A I q).loads 1
      = q * L / 2 := beam_F L E A I q 1
  show (∑ j ∈ Finset.range 6,
      K_of (beamModel x0 L E A I q).elements 1 j * beamU x0 L E A I q j) -
      F_of (beamModel x0 L E A I q).elements (beamModel x0 L E A I q).loads 1
      = -(q * L / 2)
  rw [Finset.sum_range_succ, Finset.sum_range_succ, Finset.sum_range_succ,
    Finset.sum_range_succ, Finset.sum_range_succ, Finset.sum_range_one]
  rw [hU0, hU1, hU2, hU3, hU4, hU5, hK12, hK15, hF1]
  ring

/-- The vertical reaction at the beam's roller node (DOF 4) is `-qL/2`. -/
lemma beam_R4 (x0 L E A I q : ℚ) : beamR x0 L E A I q 4 = -(q * L / 2) := by
  have hU0 : beamU x0 L E A I q 0 = 0 := rfl
  have hU1 : beamU x0 L E A I q 1 = 0 := rfl
  have hU2 : beamU x0 L E A I q 2 = q * L ^ 3 / (24 * E * I) := rfl
  have hU3 : beamU x0 L E A I q 3 = 0 := rfl
  have hU4 : beamU x0 L E A I q 4 = 0 := rfl
  have hU5 : beamU x0 L E A I q 5 = -(q * L ^ 3 / (24 * E * I)) := rfl
  have hK42 : K_of (beamModel x0 L E A I q).elements 4 2 = -(6 * E * I / L ^ 2) :=
    beam_K L E A I 4 2
  have hK45 : K_of (beamModel x0 L E A I q).elements 4 5 = -(6 * E * I / L ^ 2) :=
    beam_K L E A I 4 5
  have hF4 : F_of (beamModel x0 L E A I q).elements (beamModel x0 L E A I q).loads 4
      = q * L / 2 := beam_F L E A I q 4
  show (∑ j ∈ Finset.range 6,
      K_of (beamModel x0 L E A I q).elements 4 j * beamU x0 L E A I q j) -
      F_of (beamModel x0 L E A I q).elements (beamModel x0 L E A I q).loads 4
      = -(q * L / 2)
  rw [Finset.sum_range_succ, Finset.sum_range_succ, Finset.sum_range_succ,
    Finset.sum_range_succ, Finset.sum_range_succ, Finset.sum_range_one]
  rw [hU0, hU1, hU2, hU3, hU4, hU5, hK42, hK45, hF4]
  ring

/-! ## The claims -/

/-- C1: for every 2-node / 1-element simply-supported model of span `L > 0`
(pin `[1,1,0]` at node 0, roller `[0,1,0]` at node 1) with positive `E, A, I`
and a uniform distributed transverse load `q`, `solve()` succeeds and the two
vertical support reactions (DOFs 1 and 4) each have magnitude `|q|·L/2`, and
their sum has magnitude `|q|·L` — exactly, hence within any floating-point
tolerance. -/
theorem claim_C1 (x0 L E A I q : ℚ) (hL : 0 < L) (hE : 0 < E) (hA : 0 < A)
    (hI : 0 < I) :
    ∃ me : ContinuousBridgeFEM × ℕ,
      add_element (add_node (add_node initModel x0 0).1 (x0 + L) 0).1 0 1 E A I
        = Except.ok me ∧
      ∃ m' U R,
        solve (add_distributed_load
            (add_support (add_support me.1 0 [true, true, false]) 1
              [false, true, false]) 0 q)
          = Except.ok (m', U, R) ∧
        |R 1| = |q| * L / 2 ∧ |R 4| = |q| * L / 2 ∧ |R 1 + R 4| = |q| * L := by
  have hlen : ratSqrt ((x0 + L - x0) ^ 2 + ((0 : ℚ) - 0) ^ 2) = L := by
    rw [show (x0 + L - x0) ^ 2 + ((0 : ℚ) - 0) ^ 2 = L * L by ring, ratSqrt_sq,
      abs_of_pos hL]
  have hadd : add_element (add_node (add_node initModel x0 0).1 (x0 + L) 0).1
      0 1 E A I
      = Except.ok
          ({ nodes := [(x0, 0), (x0 + L, 0)]
             elements := [{ node1 := 0, node2 := 1
                            length := ratSqrt ((x0 + L - x0) ^ 2 + ((0 : ℚ) - 0) ^ 2)
                            E := E, A := A, I := I }]
             supports := [], loads := []
             displacements := none, reactions := none }, 0) := rfl
  rw [hlen] at hadd
  refine ⟨_, hadd, ?_⟩
  refine ⟨{ beamModel x0 L E A I q with
      displacements := some (beamU x0 L E A I q)
      reactions := some (beamR x0 L E A I q) },
    beamU x0 L E A I q, beamR x0 L E A I q, ?_, ?_, ?_, ?_⟩
  · exact beam_solve x0 L E A I q hL hE hA hI
  · rw [beam_R1, abs_neg, abs_div, abs_mul, abs_of_pos hL]
    norm_num
  · rw [beam_R4, abs_neg, abs_div, abs_mul, abs_of_pos hL]
    norm_num
  · rw [beam_R1, beam_R4,
      show -(q * L / 2) + -(q * L / 2) = -(q * L) by ring, abs_neg, abs_mul,
      abs_of_pos hL]

/-- C1 witness: the claim instantiated at `x0 = 0, L = 1, E = A = I = 1,
q = 2`. -/
theorem claim_C1_witness :
    (0 : ℚ) < 1 ∧
    ∃ me : ContinuousBridgeFEM × ℕ,
      add_element (add_node (add_node initModel 0 0).1 (0 + 1) 0).1 0 1 1 1 1
        = Except.ok me ∧
      ∃ m' U R,
        solve (add_distributed_load
            (add_support (add_support me.1 0 [true, true, false]) 1
              [false, true, false]) 0 2)
          = Except.ok (m', U, R) ∧
        |R 1| = |(2 : ℚ)| * 1 / 2 ∧ |R 4| = |(2 : ℚ)| * 1 / 2 ∧
        |R 1 + R 4| = |(2 : ℚ)| * 1 :=
  ⟨by norm_num,
    claim_C1 0 1 1 1 1 2 (by norm_num) (by norm_num) (by norm_num) (by norm_num)⟩

/-- C2: for every model accepted by `assemble_global_matrix` (and with
positive element lengths, as the claim's universe requires), the assembled
global stiffness matrix is symmetric on all DOF indices `0..3N-1`. -/
theorem claim_C2 (m : ContinuousBridgeFEM) (K : ℕ → ℕ → ℚ) (F : ℕ → ℚ)
    (hlen : ∀ e ∈ m.elements, 0 < e.length)
    (h : assemble_global_matrix m = Except.ok (K, F))
    (i j : ℕ) (hi : i < m.nodes.length * 3) (hj : j < m.nodes.length * 3) :
    K i j = K j i := by
  rw [assemble_global_matrix] at h
  by_cases hA : assembleOK m = true
  · rw [if_pos hA] at h
    simp only [Except.ok.injEq, Prod.mk.injEq] at h
    rw [← h.1]
    exact K_of_symm m.elements i j
  · rw [if_neg hA] at h
    cases h

/-- C2 witness: symmetry of the assembled matrix of the concrete single-span
beam at DOF pair `(1, 2)`. -/
theorem claim_C2_witness :
    (∀ e ∈ (beamModel 0 1 1 1 1 1).elements, 0 < e.length) ∧
    assemble_global_matrix (beamModel 0 1 1 1 1 1)
      = Except.ok (K_of (beamModel 0 1 1 1 1 1).elements,
          F_of (beamModel 0 1 1 1 1 1).elements (beamModel 0 1 1 1 1 1).loads) ∧
    K_of (beamModel 0 1 1 1 1 1).elements 1 2
      = K_of (beamModel 0 1 1 1 1 1).elements 2 1 :=
  ⟨by decide, rfl,
    claim_C2 (beamModel 0 1 1 1 1 1) _ _ (by decide) rfl 1 2 (by decide)
      (by decide)⟩

/-- C3: after a successful `solve`, the returned full displacement vector is
exactly zero at every DOF flagged constrained by any support (and, more
generally, at every index outside the free-DOF list: only free DOFs carry
the solved values). -/
theorem claim_C3 (m m' : ContinuousBridgeFEM) (U R : ℕ → ℚ)
    (h : solve m = Except.ok (m', U, R)) :
    (∀ d ∈ constrainedDofs m.supports, U d = 0) ∧
    (∀ d, d ∉ freeList m → U d = 0) := by
  obtain ⟨hA, uf, hls, hU, hR, hm'⟩ := solve_ok_inv h
  have hoff : ∀ d, d ∉ freeList m → U d = 0 := by
    intro d hd
    rw [hU]
    exact scatterL_not_mem hd
  refine ⟨fun d hd => hoff d ?_, hoff⟩
  intro hmem
  exact (mem_freeList.mp hmem).2 hd

/-- C3 witness: on the solved concrete beam, the constrained transverse DOF
of the pinned node (DOF 1) has exactly zero displacement. -/
theorem claim_C3_witness :
    solve (beamModel 0 1 1 1 1 1)
      = Except.ok
          ({ beamModel 0 1 1 1 1 1 with
              displacements := some (beamU 0 1 1 1 1 1)
              reactions := some (beamR 0 1 1 1 1 1) },
            beamU 0 1 1 1 1 1, beamR 0 1 1 1 1 1) ∧
    (1 : ℕ) ∈ constrainedDofs (beamModel 0 1 1 1 1 1).supports ∧
    beamU 0 1 1 1 1 1 1 = 0 := by
  have hsol := beam_solve 0 1 1 1 1 1 (by norm_num) (by norm_num) (by norm_num)
    (by norm_num)
  exact ⟨hsol, by decide, (claim_C3 _ _ _ _ hsol).1 1 (by decide)⟩

/-- C4: after a successful `solve`, the returned reaction vector satisfies
`R = K·U - F` for the assembled global `K` and `F`, and `R` is exactly zero
at every free DOF — nonzero entries can occur only at constrained DOFs. -/
theorem claim_C4 (m m' : ContinuousBridgeFEM) (U R : ℕ → ℚ)
    (h : solve m = Except.ok (m', U, R)) :
    (∀ i, R i = (∑ j ∈ Finset.range (m.nodes.length * 3),
        K_of m.elements i j * U j) - F_of m.elements m.loads i) ∧
    (∀ d ∈ freeList m, R d = 0) ∧
    (∀ d, d < m.nodes.length * 3 → d ∉ constrainedDofs m.supports → R d = 0) := by
  obtain ⟨hA, uf, hls, hU, hR, hm'⟩ := solve_ok_inv h
  have hnd : (freeList m).Nodup := nodup_free_dof_list _ _
  have hsub : ∀ d ∈ freeList m, d < m.nodes.length * 3 :=
    fun d hd => (mem_freeList.mp hd).1
  have hfree : ∀ d ∈ freeList m, R d = 0 := by
    intro d hd
    obtain ⟨i, hi⟩ := List.mem_iff_get.mp hd
    rw [hR d, hU, ← hi, sum_mul_scatter _ hnd hsub uf, sub_eq_zero]
    have hmv := congrFun (linSolve_mulVec hls) i
    simpa [Matrix.mulVec, Matrix.dotProduct, KffL, Matrix.of_apply, FffL]
      using hmv
  refine ⟨hR, hfree, fun d hdlt hdc => hfree d (mem_freeList.mpr ⟨hdlt, hdc⟩)⟩

/-- C4 witness: on the solved concrete beam, the free rotation DOF 2 carries
zero reaction. -/
theorem claim_C4_witness :
    solve (beamModel 0 1 1 1 1 2)
      = Except.ok
          ({ beamModel 0 1 1 1 1 2 with
              displacements := some (beamU 0 1 1 1 1 2)
              reactions := some (beamR 0 1 1 1 1 2) },
            beamU 0 1 1 1 1 2, beamR 0 1 1 1 1 2) ∧
    (2 : ℕ) ∈ freeList (beamModel 0 1 1 1 1 2) ∧
    beamR 0 1 1 1 1 2 2 = 0 := by
  have hsol := beam_solve 0 1 1 1 1 2 (by norm_num) (by norm_num) (by norm_num)
    (by norm_num)
  exact ⟨hsol, by decide, (claim_C4 _ _ _ _ hsol).2.1 2 (by decide)⟩

/-- C5: for every beam element with `L > 0` and every uniform distributed
transverse load `q`, the equivalent nodal load 6-vector is
`[0, qL/2, qL²/12, 0, qL/2, -qL²/12]`. -/
theorem claim_C5 (b : SimpleFEMBeam) (q : ℚ) (hL : 0 < b.L) :
    b.equivalent_nodal_loads q 0 = 0 ∧
    b.equivalent_nodal_loads q 1 = q * b.L / 2 ∧
    b.equivalent_nodal_loads q 2 = q * b.L ^ 2 / 12 ∧
    b.equivalent_nodal_loads q 3 = 0 ∧
    b.equivalent_nodal_loads q 4 = q * b.L / 2 ∧
    b.equivalent_nodal_loads q 5 = -(q * b.L ^ 2 / 12) :=
  ⟨rfl, rfl, rfl, rfl, rfl, rfl⟩

/-- C5 witness: the equivalent nodal loads of the beam `L = 2, E = 3, A = 4,
I = 5` under `q = 6`. -/
theorem claim_C5_witness :
    (0 : ℚ) < ({ L := 2, E := 3, A := 4, I := 5 } : SimpleFEMBeam).L ∧
    (({ L := 2, E := 3, A := 4, I := 5 } : SimpleFEMBeam).equivalent_nodal_loads
        6 0 = 0 ∧
      ({ L := 2, E := 3, A := 4, I := 5 } : SimpleFEMBeam).equivalent_nodal_loads
        6 1 = 6 * ({ L := 2, E := 3, A := 4, I := 5 } : SimpleFEMBeam).L / 2 ∧
      ({ L := 2, E := 3, A := 4, I := 5 } : SimpleFEMBeam).equivalent_nodal_loads
        6 2 = 6 * ({ L := 2, E := 3, A := 4, I := 5 } : SimpleFEMBeam).L ^ 2 / 12 ∧
      ({ L := 2, E := 3, A := 4, I := 5 } : SimpleFEMBeam).equivalent_nodal_loads
        6 3 = 0 ∧
      ({ L := 2, E := 3, A := 4, I := 5 } : SimpleFEMBeam).equivalent_nodal_loads
        6 4 = 6 * ({ L := 2, E := 3, A := 4, I := 5 } : SimpleFEMBeam).L / 2 ∧
      ({ L := 2, E := 3, A := 4, I := 5 } : SimpleFEMBeam).equivalent_nodal_loads
        6 5 = -(6 * ({ L := 2, E := 3, A := 4, I := 5 } : SimpleFEMBeam).L ^ 2 / 12)) :=
  ⟨by decide, claim_C5 { L := 2, E := 3, A := 4, I := 5 } 6 (by decide)⟩

/-- C6: whenever the reduced stiffness matrix is singular, `solve` reports
`SingularSystem` (returning no result vectors and storing nothing); in
particular it does so for every valid model with at least one element and no
supports at all, whose reduced matrix is provably singular. -/
theorem claim_C6 (m : ContinuousBridgeFEM) (hA : assembleOK m = true) :
    ((KffL m.elements (freeList m)).det = 0 →
      solve m = Except.error FemError.singularSystem) ∧
    (m.supports = [] → m.elements ≠ [] →
      solve m = Except.error FemError.singularSystem) := by
  have hgen : (KffL m.elements (freeList m)).det = 0 →
      solve m = Except.error FemError.singularSystem := by
    intro hdet
    rw [solve, if_pos hA, solveCore, linSolve_of_det_eq_zero _ hdet]
  refine ⟨hgen, fun hsup hel => hgen ?_⟩
  obtain ⟨e, he⟩ : ∃ e, e ∈ m.elements := by
    cases hme : m.elements with
    | nil => exact absurd hme hel
    | cons a l => exact ⟨a, hme ▸ List.mem_cons_self a l⟩
  have helOK : m.elements.all (elementOK m.nodes.length) = true := by
    rw [assembleOK, Bool.and_eq_true] at hA
    exact hA.1
  have hn : 1 ≤ m.nodes.length := by
    have h2 := List.all_eq_true.mp helOK e he
    rw [elementOK, Bool.and_eq_true, decide_eq_true_eq, decide_eq_true_eq] at h2
    omega
  exact KffL_det_zero_of_no_supports helOK hsup hn

/-- C6 witness: a 2-node, 1-element model with no supports at all is rejected
by `solve` with `SingularSystem`. -/
theorem claim_C6_witness :
    assembleOK noSupportModel = true ∧
    noSupportModel.supports = [] ∧ noSupportModel.elements ≠ [] ∧
    solve noSupportModel = Except.error FemError.singularSystem := by
  refine ⟨rfl, rfl, by decide, ?_⟩
  exact (claim_C6 noSupportModel rfl).2 rfl (by decide)

/-- C7 counterexample: `add_distributed_load` with a dangling element id on
an empty model raises nothing at construction — the load is recorded — and
the `InvalidReference` error surfaces only when `solve` runs the assembly.
This refutes the claim that all three constructors validate references
"immediately at that construction call, not deferred to solve time". -/
theorem claim_C7_counterexample :
    (add_distributed_load initModel 0 5).loads = [Load.distributed 0 5] ∧
    solve (add_distributed_load initModel 0 5)
      = Except.error FemError.invalidReference :=
  ⟨rfl, rfl⟩

/-- C7 amended: `add_element` does raise `InvalidReference` (`IndexError`)
immediately when either node id does not exist; but `add_distributed_load`
and `add_point_load` perform no validation at construction — they record the
load unconditionally, and a dangling element/node reference is reported as
`InvalidReference` only at `solve` time, during assembly. -/
theorem claim_C7_amended :
    (∀ (m : ContinuousBridgeFEM) (n1 n2 : ℕ) (E A I : ℚ),
      m.nodes.get? n1 = none ∨ m.nodes.get? n2 = none →
      add_element m n1 n2 E A I = Except.error FemError.invalidReference) ∧
    (∀ (m : ContinuousBridgeFEM) (eid : ℕ) (qd : ℚ),
      (add_distributed_load m eid qd).loads
        = m.loads ++ [Load.distributed eid qd]) ∧
    (∀ (m : ContinuousBridgeFEM) (eid : ℕ) (qd : ℚ), m.elements.length ≤ eid →
      solve (add_distributed_load m eid qd)
        = Except.error FemError.invalidReference) ∧
    (∀ (m : ContinuousBridgeFEM) (nd : ℕ) (fx fy mz : ℚ),
      (add_point_load m nd fx fy mz).loads
        = m.loads ++ [Load.point nd fx fy mz]) ∧
    (∀ (m : ContinuousBridgeFEM) (nd : ℕ) (fx fy mz : ℚ), m.nodes.length ≤ nd →
      solve (add_point_load m nd fx fy mz)
        = Except.error FemError.invalidReference) := by
  refine ⟨?_, fun m eid qd => rfl, ?_, fun m nd fx fy mz => rfl, ?_⟩
  · intro m n1 n2 E A I h
    cases hx : m.nodes.get? n1 with
    | none => rw [add_element, hx]
    | some p =>
      obtain ⟨x1, y1⟩ := p
      rcases h with h | h
      · rw [hx] at h
        cases h
      · rw [add_element, hx, h]
  · intro m eid qd h
    have hbad : loadOK m.nodes.length m.elements.length
        (Load.distributed eid qd) = false := by
      simp [loadOK]
      omega
    have hOK : assembleOK (add_distributed_load m eid qd) = false := by
      simp [assembleOK, add_distributed_load, List.all_append, hbad]
    rw [solve, if_neg (by simp [hOK])]
  · intro m nd fx fy mz h
    have hbad : loadOK m.nodes.length m.elements.length
        (Load.point nd fx fy mz) = false := by
      simp [loadOK]
      omega
    have hOK : assembleOK (add_point_load m nd fx fy mz) = false := by
      simp [assembleOK, add_point_load, List.all_append, hbad]
    rw [solve, if_neg (by simp [hOK])]

/-- C7 amended, witness: a dangling `add_element` node id errors at once; a
dangling distributed/point load is recorded and errors only at `solve`. -/
theorem claim_C7_witness :
    initModel.nodes.get? 0 = none ∧
    add_element initModel 0 0 1 1 1 = Except.error FemError.invalidReference ∧
    initModel.elements.length ≤ 0 ∧
    solve (add_distributed_load initModel 0 7)
      = Except.error FemError.invalidReference ∧
    initModel.nodes.length ≤ 3 ∧
    solve (add_point_load initModel 3 1 2 3)
      = Except.error FemError.invalidReference := by
  refine ⟨rfl, ?_, by decide, ?_, by decide, ?_⟩
  · exact claim_C7_amended.1 initModel 0 0 1 1 1 (Or.inl rfl)
  · exact claim_C7_amended.2.2.1 initModel 0 7 (by decide)
  · exact claim_C7_amended.2.2.2.2 initModel 3 1 2 3 (by decide)

/-- C8: a freshly initialised model has no stored reactions, every
constructor preserves that, and any result query on such a model reports
`UnsolvedStateError` (Python: `AttributeError`) instead of silent zeros. -/
theorem claim_C8 :
    initModel.reactions = none ∧
    (∀ (m : ContinuousBridgeFEM) (x y : ℚ),
      (add_node m x y).1.reactions = m.reactions) ∧
    (∀ (m : ContinuousBridgeFEM) (n1 n2 : ℕ) (E A I : ℚ) me,
      add_element m n1 n2 E A I = Except.ok me →
      me.1.reactions = m.reactions) ∧
    (∀ (m : ContinuousBridgeFEM) (n : ℕ) (c : List Bool),
      (add_support m n c).reactions = m.reactions) ∧
    (∀ (m : ContinuousBridgeFEM) (e : ℕ) (qd : ℚ),
      (add_distributed_load m e qd).reactions = m.reactions) ∧
    (∀ (m : ContinuousBridgeFEM) (n : ℕ) (fx fy mz : ℚ),
      (add_point_load m n fx fy mz).reactions = m.reactions) ∧
    (∀ m : ContinuousBridgeFEM, m.reactions = none →
      get_support_reactions m = Except.error FemError.unsolvedState) := by
  refine ⟨rfl, fun m x y => rfl, ?_, fun m n c => rfl, fun m e qd => rfl,
    fun m n fx fy mz => rfl, ?_⟩
  · intro m n1 n2 E A I me h
    cases hx : m.nodes.get? n1 with
    | none =>
      rw [add_element, hx] at h
      exact Except.noConfusion h
    | some p =>
      obtain ⟨x1, y1⟩ := p
      cases hy : m.nodes.get? n2 with
      | none =>
        rw [add_element, hx, hy] at h
        exact Except.noConfusion h
      | some p2 =>
        obtain ⟨x2, y2⟩ := p2
        rw [add_element, hx, hy] at h
        rw [← Except.ok.inj h]
  · intro m h
    rw [get_support_reactions, h]

/-- C8 witness: the accessor on a freshly built (unsolved) model with a
support and a load reports `UnsolvedStateError`. -/
theorem claim_C8_witness :
    initModel.reactions = none ∧
    (add_point_load (add_support initModel 0 [true, true, false]) 0 0 (-5) 0).reactions
      = none ∧
    get_support_reactions
        (add_point_load (add_support initModel 0 [true, true, false]) 0 0 (-5) 0)
      = Except.error FemError.unsolvedState := by
  refine ⟨claim_C8.1, rfl, ?_⟩
  exact claim_C8.2.2.2.2.2.2 _ rfl

/-- C9: on a solved model, `get_support_reactions` returns, per declared
support in order, the reactions read from `R` at the node's three DOFs
masked by that support's constraint flags — any component whose flag is not
set is reported as literal `0` (even where `R` is nonzero), and a component
whose flag is set is `R` at that DOF. -/
theorem claim_C9 (m : ContinuousBridgeFEM) (R : ℕ → ℚ)
    (h : m.reactions = some R) :
    get_support_reactions m = Except.ok (m.supports.map (maskReaction R)) ∧
    ∀ s ∈ m.supports,
      (s.constraints.getD 0 false = false → (maskReaction R s).Rx = 0) ∧
      (s.constraints.getD 1 false = false → (maskReaction R s).Ry = 0) ∧
      (s.constraints.getD 2 false = false → (maskReaction R s).Mz = 0) ∧
      (s.constraints.getD 0 false = true →
        (maskReaction R s).Rx = R (s.node * 3)) ∧
      (s.constraints.getD 1 false = true →
        (maskReaction R s).Ry = R (s.node * 3 + 1)) ∧
      (s.constraints.getD 2 false = true →
        (maskReaction R s).Mz = R (s.node * 3 + 2)) := by
  constructor
  · rw [get_support_reactions, h]
  · intro s _
    refine ⟨?_, ?_, ?_, ?_, ?_, ?_⟩ <;> intro hc <;> simp only [maskReaction] <;>
      rw [hc] <;> simp

/-- C9 witness: a roller support (`[0,1,0]`) on a model whose stored reaction
vector is constantly `5` reports `Rx = 0` despite the underlying nonzero
value. -/
theorem claim_C9_witness :
    ({ initModel with supports := [⟨0, [false, true, false]⟩], reactions := some (fun _ => (5 : ℚ)) } : ContinuousBridgeFEM).reactions = some (fun _ => (5 : ℚ)) ∧
    get_support_reactions { initModel with supports := [⟨0, [false, true, false]⟩], reactions := some (fun _ => (5 : ℚ)) }
      = Except.ok (List.map (maskReaction (fun _ => (5 : ℚ))) [⟨0, [false, true, false]⟩]) ∧
    (maskReaction (fun _ => (5 : ℚ)) ⟨0, [false, true, false]⟩).Rx = 0 := by
  have h := claim_C9
    { initModel with supports := [⟨0, [false, true, false]⟩], reactions := some (fun _ => (5 : ℚ)) }
    (fun _ => (5 : ℚ)) rfl
  exact ⟨rfl, h.1, (h.2 ⟨0, [false, true, false]⟩ (by decide)).1 (by decide)⟩

/-- The constrained-DOF list distributes over support-list append. -/
lemma constrainedDofs_append (l1 l2 : List Support) :
    constrainedDofs (l1 ++ l2) = constrainedDofs l1 ++ constrainedDofs l2 := by
  rw [constrainedDofs, constrainedDofs, constrainedDofs, List.map_append,
    List.flatten_append]

/-- C10: boundary-condition reduction depends only on WHICH DOFs are
constrained, not how often: two models differing only in their support lists
but constraining the same DOF set have the same free-DOF list and the same
`solve()` results; in particular declaring the same support twice changes
nothing. -/
theorem claim_C10 :
    (∀ m m' : ContinuousBridgeFEM, m.nodes = m'.nodes →
      m.elements = m'.elements → m.loads = m'.loads →
      (∀ d, d ∈ constrainedDofs m.supports ↔ d ∈ constrainedDofs m'.supports) →
      freeList m = freeList m' ∧
        (solve m).map (fun r => r.2) = (solve m').map (fun r => r.2)) ∧
    (∀ (m : ContinuousBridgeFEM) (nd : ℕ) (c : List Bool),
      freeList (add_support (add_support m nd c) nd c)
        = freeList (add_support m nd c) ∧
      (solve (add_support (add_support m nd c) nd c)).map (fun r => r.2)
        = (solve (add_support m nd c)).map (fun r => r.2)) := by
  have hgen : ∀ m m' : ContinuousBridgeFEM, m.nodes = m'.nodes →
      m.elements = m'.elements → m.loads = m'.loads →
      (∀ d, d ∈ constrainedDofs m.supports ↔ d ∈ constrainedDofs m'.supports) →
      freeList m = freeList m' ∧
        (solve m).map (fun r => r.2) = (solve m').map (fun r => r.2) := by
    intro m m' hn he hl hcd
    have hfd : freeList m = freeList m' := by
      rw [freeList, freeList, hn, free_dof_list, free_dof_list,
        foldl_erase_eq_filter _ _ (List.nodup_range _),
        foldl_erase_eq_filter _ _ (List.nodup_range _)]
      apply List.filter_congr
      intro a _
      simp only [decide_eq_decide]
      exact not_congr (hcd a)
    refine ⟨hfd, ?_⟩
    have hA : assembleOK m = assembleOK m' := by
      rw [assembleOK, assembleOK, hn, he, hl]
    have hcore : solveCore m.nodes.length m.elements m.loads (freeList m)
        = solveCore m'.nodes.length m'.elements m'.loads (freeList m') := by
      rw [hn, he, hl, hfd]
    rw [solve, solve, hA]
    by_cases hA2 : assembleOK m' = true
    · rw [if_pos hA2, if_pos hA2, hcore]
      cases solveCore m'.nodes.length m'.elements m'.loads (freeList m') with
      | none => rfl
      | some ur =>
        cases ur with
        | mk u r => rfl
    · rw [if_neg hA2, if_neg hA2]
  refine ⟨hgen, fun m nd c => hgen (add_support (add_support m nd c) nd c)
    (add_support m nd c) rfl rfl rfl fun d => ?_⟩
  simp only [add_support, constrainedDofs_append, List.mem_append]
  tauto

/-- C10 witness: two overlapping supports on node 0 (`[1,0,0]` then
`[1,1,0]`) produce the same free-DOF list and `solve()` results as the
single combined support `[1,1,0]`. -/
theorem claim_C10_witness :
    freeList { initModel with supports := [⟨0, [true, false, false]⟩, ⟨0, [true, true, false]⟩] }
      = freeList { initModel with supports := [⟨0, [true, true, false]⟩] } ∧
    (solve { initModel with supports := [⟨0, [true, false, false]⟩, ⟨0, [true, true, false]⟩] }).map (fun r => r.2)
      = (solve { initModel with supports := [⟨0, [true, true, false]⟩] }).map (fun r => r.2) := by
  refine claim_C10.1
    { initModel with supports := [⟨0, [true, false, false]⟩, ⟨0, [true, true, false]⟩] }
    { initModel with supports := [⟨0, [true, true, false]⟩] } rfl rfl rfl fun d => ?_
  show d ∈ ([0, 0, 1] : List ℕ) ↔ d ∈ ([0, 1] : List ℕ)
  simp only [List.mem_cons, List.not_mem_nil, or_false]
  tauto
